import Mathlib

/-!
Verification of the arena allocator in `include/arena.h` (fixed-buffer
configuration: `OOM_COMMIT` not defined, recovery-point mode available).

Addresses and sizes are modelled as `Int` (C `byte *` pointers and
`isize = ptrdiff_t`).  C's `isize` division truncates toward zero, which is
`Int.tdiv`; C's `-(uintptr_t)cur & (align - 1)` equals `(-cur) % align`
(`Int.emod`, result in `[0, align)`) for the power-of-two alignments every
call site passes, because `align` divides `2^64`.  `size_t` conversion is
reduction mod `2^64`.  Byte memory is a total function `Int → Nat`; `memmove`
copies as if through a temporary buffer, exactly like the C library function.
-/

/-- Arena allocator context (`struct Arena`): `beg`/`cur`/`end` pointers.
The C field `end` is a Lean keyword and is called `end_` here. -/
structure Arena where
  beg : Int
  cur : Int
  end_ : Int
deriving Repr, DecidableEq

/-- Allocation flags (`ArenaFlag`): bit 0 = `_NO_INIT`, bit 1 = `_OOM_NULL`. -/
structure ArenaFlag where
  mask : Nat
deriving Repr, DecidableEq

def NO_INIT : ArenaFlag := ⟨1⟩

def OOM_NULL : ArenaFlag := ⟨2⟩

/-- Outcome of one allocation call.  `ok` returns the pointer and the updated
arena; `oomNull` models `return NULL` under `_OOM_NULL`; `oomJump` models
`longjmp(*arena->oom, 1)` to the registered recovery point.  Each failure
constructor carries the arena state observable after the failed call. -/
inductive AllocResult where
  | ok (ptr : Int) (a : Arena)
  | oomNull (a : Arena)
  | oomJump (a : Arena)
deriving Repr, DecidableEq

/-- `arena_init(buf, size)`: `a.beg = a.cur = buf; a.end = buf ? buf + size : 0`. -/
def arena_init (buf size : Int) : Arena :=
  { beg := buf, cur := buf, end_ := if buf ≠ 0 then buf + size else 0 }

/-- `arena_reset`: rewinds the bump pointer to `beg`. -/
def arena_reset (a : Arena) : Arena :=
  { a with cur := a.beg }

/-- Conversion of an `isize` value to `size_t` (unsigned 64-bit). -/
def toSizeT (x : Int) : Int := x % (2 ^ 64)

/-- `arena_mul_overflow(size, count, &total)`: `__builtin_mul_overflow` on the
`size_t`-converted operands, detecting results that do not fit `isize`.
`none` means overflow was reported. -/
def arena_mul_overflow (a b : Int) : Option Int :=
  if toSizeT a * toSizeT b < 2 ^ 63 then some (toSizeT a * toSizeT b) else none

/-- Alignment padding `-(uintptr_t)current & (align - 1)` (power-of-two `align`). -/
def pad_of (cur align : Int) : Int := (-cur) % align

/-- The `HANDLE_OOM` label: `_OOM_NULL` returns NULL, otherwise control
transfers to the registered recovery point (`longjmp`). -/
def handleOOM (a : Arena) (flags : ArenaFlag) : AllocResult :=
  if flags.mask &&& 2 ≠ 0 then .oomNull a else .oomJump a

/-- `arena_alloc_grow`: slow path.  `avail = end - cur`, `pad` as above; checks
multiplication overflow, then the capacity guard (the `while` loop collapses
to a single test without `OOM_COMMIT`); on success advances `cur` by
`pad + total_size`. -/
def arena_alloc_grow (a : Arena) (size align count : Int) (flags : ArenaFlag) :
    AllocResult :=
  match arena_mul_overflow size count with
  | none => handleOOM a flags
  | some total_size =>
    if count ≥ Int.tdiv (a.end_ - a.cur - pad_of a.cur align) size then
      handleOOM a flags
    else
      .ok (a.cur + pad_of a.cur align)
          { a with cur := a.cur + pad_of a.cur align + total_size }

/-- `arena_alloc`: fast path (`count <= (avail - pad) / size`, C truncating
division) bumps `cur` by `pad + size*count`; otherwise `arena_alloc_grow`. -/
def arena_alloc (a : Arena) (size align count : Int) (flags : ArenaFlag) :
    AllocResult :=
  if count ≤ Int.tdiv (a.end_ - a.cur - pad_of a.cur align) size then
    .ok (a.cur + pad_of a.cur align)
        { a with cur := a.cur + pad_of a.cur align + size * count }
  else
    arena_alloc_grow a size align count flags

/-- `arena_alloc_init(arena, size, align, count, initptr)` at address level:
allocates with `NO_INIT` (the copy affects only the byte store). -/
def arena_alloc_init (a : Arena) (size align count : Int) : AllocResult :=
  arena_alloc a size align count NO_INIT

/-- Byte memory: value of the byte stored at each address. -/
def Store : Type := Int → Nat

/-- `memset(dst, v, n)`: the bytes of `[dst, dst+n)` become `v`. -/
def memset (st : Store) (dst : Int) (v : Nat) (n : Int) : Store :=
  fun x => if dst ≤ x ∧ x < dst + n then v else st x

/-- `memmove(dst, src, n)`: copies `[src, src+n)` over `[dst, dst+n)` as if
through a temporary buffer (reads come from the pre-call store). -/
def memmove (st : Store) (dst src n : Int) : Store :=
  fun x => if dst ≤ x ∧ x < dst + n then st (src + (x - dst)) else st x

/-- The `n` bytes stored at `[a, a+n)`. -/
def readBytes (st : Store) (a : Int) (n : Nat) : List Nat :=
  (List.range n).map fun i : Nat => st (a + (i : Int))

/-- An arena together with the byte memory it allocates from. -/
structure Mem where
  arena : Arena
  st : Store

/-- `arena_alloc` at memory level: zero-fills the returned block unless
`_NO_INIT` is set (`memset(current, 0, total_size)` in the source).  `none`
collapses both failure modes (the callers below never pass `_OOM_NULL`). -/
def arena_allocM (m : Mem) (size align count : Int) (flags : ArenaFlag) :
    Option (Int × Mem) :=
  match arena_alloc m.arena size align count flags with
  | .ok ptr a' =>
      some (ptr, ⟨a', if flags.mask &&& 1 ≠ 0 then m.st
                      else memset m.st ptr 0 (size * count)⟩)
  | _ => none

/-- Arena-owned string `astr`: data pointer and length (`isize`). -/
structure astr where
  data : Int
  len : Int
deriving Repr, DecidableEq

/-- `astr_clone`: no-op if the string is empty or already ends at the arena
tip; otherwise `New(arena, char, s.len, NO_INIT)` followed by `memmove`. -/
def astr_clone (m : Mem) (s : astr) : Option (Mem × astr) :=
  if s.len = 0 ∨ s.data + s.len = m.arena.cur then
    some (m, s)
  else
    match arena_allocM m 1 1 s.len NO_INIT with
    | some (ptr, m') => some (⟨m'.arena, memmove m'.st ptr s.data s.len⟩, ⟨ptr, s.len⟩)
    | none => none

/-- `astr_concat(arena, head, tail)`: empty head returns the tail directly
when it is tip-adjacent (else clones it); otherwise clones head to the tip,
clones tail right after it and extends the head's length. -/
def astr_concat (m : Mem) (head tail : astr) : Option (Mem × astr) :=
  if head.len = 0 then
    if tail.len ≠ 0 ∧ tail.data + tail.len = m.arena.cur then
      some (m, tail)
    else
      astr_clone m tail
  else
    match astr_clone m head with
    | some (m1, result) =>
        match astr_clone m1 tail with
        | some (m2, t2) => some (m2, ⟨result.data, result.len + t2.len⟩)
        | none => none
    | none => none

/-- Slice header (`slice(T)`): data pointer, length and capacity in elements. -/
structure Slice where
  data : Int
  len : Int
  cap : Int
deriving Repr, DecidableEq

/-- `arena_slice_grow(arena, slice, size, align)`: `grow = 10 * size`; three
branches: migrate a `cap == 0` slice into the arena (`cap = len + grow`),
grow in place when the slice ends exactly at the cursor
(`data == cur - size*cap`), else reallocate with
`cap += Max(cap/2, grow)` (C truncating division) and copy. -/
def arena_slice_grow (m : Mem) (s : Slice) (size align : Int) :
    Option (Mem × Slice) :=
  if s.cap = 0 then
    match arena_allocM m size align (s.len + 10 * size) NO_INIT with
    | some (ptr, m') =>
        if s.len = 0 then
          some (m', ⟨ptr, s.len, s.len + 10 * size⟩)
        else
          some (⟨m'.arena, memmove m'.st ptr s.data (size * s.len)⟩,
                ⟨ptr, s.len, s.len + 10 * size⟩)
    | none => none
  else if s.data = m.arena.cur - size * s.cap then
    match arena_allocM m size 1 (10 * size) NO_INIT with
    | some (_, m') => some (m', ⟨s.data, s.len, s.cap + 10 * size⟩)
    | none => none
  else
    match arena_allocM m size align (s.cap + max (Int.tdiv s.cap 2) (10 * size))
        NO_INIT with
    | some (ptr, m') =>
        some (⟨m'.arena, memmove m'.st ptr s.data (size * s.len)⟩,
              ⟨ptr, s.len, s.cap + max (Int.tdiv s.cap 2) (10 * size)⟩)
    | none => none

/-- `arena_free(ptr, size, arena)`: only rewinds the cursor when `ptr` is the
most recent allocation (`ptr == cur - size`); a NULL `ptr` is a no-op. -/
def arena_free (ptr sz : Int) (a : Arena) : Arena :=
  if ptr = 0 then a
  else if ptr = a.cur - sz then { a with cur := ptr }
  else a

/-- `arena_default_restore(snapshot)` from the test driver: the default
arena's cursor is set back to the snapshot's cursor. -/
def arena_default_restore (a snapshot : Arena) : Arena :=
  { a with cur := snapshot.cur }

/-- Does the prefix list occur at the head of the other list?  (Used to model
byte-wise comparison inside `memmem`.) -/
def chListStartsWith : List Char → List Char → Bool
  | _, [] => true
  | [], _ :: _ => false
  | a :: as, b :: bs => a = b && chListStartsWith as bs

/-- `memmem(hay, hay_len, needle, needle_len)`: index of the first occurrence
of `needle` in `hay`, `none` when absent (NULL). -/
def memmem (hay needle : List Char) : Option Nat :=
  (List.range (hay.length + 1)).find? fun i => chListStartsWith (hay.drop i) needle

/-- `_astr_split(s, sep, &pos)`: the remaining slice starts at `pos`; the
token ends at the first separator occurrence, except that a NULL result or an
occurrence at the very start of the slice (`res == slice.data`) yields the
whole remaining slice; `pos` advances by `token.len + sep.len`. -/
def _astr_split (s sep : List Char) (pos : Nat) : List Char × Nat :=
  let slice := s.drop pos
  let tokLen :=
    match memmem slice sep with
    | some i => if i ≠ 0 then i else slice.length
    | none => slice.length
  (slice.take tokLen, pos + tokLen + sep.length)

/-- One step of the `astr_split(it, strsep, str)` iteration macro: loop while
`it.pos < it.input.len`, collecting `it.token`.  `fuel` bounds the recursion;
`astr_split` below supplies enough fuel for any nonempty separator. -/
def astr_split_go (s sep : List Char) : Nat → Nat → List (List Char)
  | _, 0 => []
  | pos, fuel + 1 =>
    if pos < s.length then
      let r := _astr_split s sep pos
      r.1 :: astr_split_go s sep r.2 fuel
    else []

/-- The full token sequence produced by the `astr_split` iterator. -/
def astr_split (s sep : List Char) : List (List Char) :=
  astr_split_go s sep 0 (s.length + 1)

/-- A returned allocation: the half-open byte range `[lo, hi)`. -/
structure Range where
  lo : Int
  hi : Int
deriving Repr, DecidableEq

/-- Trace state: the arena plus the ghost list of live returned allocations
(most recent first). -/
structure TState where
  arena : Arena
  live : List Range
deriving Repr, DecidableEq

/-- The operations of claim C1, with the arguments each one feeds to the
allocator. -/
inductive Op where
  | alloc (size align count : Int) (flags : ArenaFlag)
  | allocInit (size align count : Int)
  | sliceGrow (data len cap size align : Int)
  | reset
  | free (ptr sz : Int)
  | format (nbytes : Int)
  | restore (snap : Arena)
deriving Repr, DecidableEq

/-- Record the outcome of an internal `arena_alloc` call in the trace state:
a successful allocation's returned range becomes live; a failed call leaves
the state unchanged (both failure modes return/resume before any mutation). -/
def pushAlloc (s : TState) (r : AllocResult) (size count : Int) : TState :=
  match r with
  | .ok ptr a' => ⟨a', ⟨ptr, ptr + size * count⟩ :: s.live⟩
  | .oomNull _ => s
  | .oomJump _ => s

/-- Apply one operation to the trace state, mirroring the source of
`arena_alloc`, `arena_alloc_init`, `arena_slice_grow`, `arena_reset`,
`arena_free`, `astr_format` (including the `arena->cur--` retraction) and
`arena_default_restore`. -/
def Op.apply : Op → TState → TState
  | .alloc size _align count flags, s =>
      pushAlloc s (arena_alloc s.arena size _align count flags) size count
  | .allocInit size align count, s =>
      pushAlloc s (arena_alloc_init s.arena size align count) size count
  | .sliceGrow data len cap size align, s =>
      if cap = 0 then
        pushAlloc s (arena_alloc s.arena size align (len + 10 * size) NO_INIT)
          size (len + 10 * size)
      else if data = s.arena.cur - size * cap then
        pushAlloc s (arena_alloc s.arena size 1 (10 * size) NO_INIT)
          size (10 * size)
      else
        pushAlloc s
          (arena_alloc s.arena size align (cap + max (Int.tdiv cap 2) (10 * size))
            NO_INIT)
          size (cap + max (Int.tdiv cap 2) (10 * size))
  | .reset, s => ⟨arena_reset s.arena, []⟩
  | .free ptr sz, s =>
      if ptr = 0 then s
      else if ptr = s.arena.cur - sz then
        ⟨arena_free ptr sz s.arena, s.live.filter fun r => decide (r.hi ≤ ptr)⟩
      else s
  | .format nbytes, s =>
      match arena_alloc s.arena 1 1 (nbytes + 1) NO_INIT with
      | .ok ptr a' => ⟨{ a' with cur := a'.cur - 1 }, ⟨ptr, ptr + nbytes⟩ :: s.live⟩
      | _ => s
  | .restore snap, s =>
      ⟨arena_default_restore s.arena snap, s.live.filter fun r => decide (r.hi ≤ snap.cur)⟩

/-- Run a list of operations left to right. -/
def runOps (s : TState) (ops : List Op) : TState :=
  ops.foldl (fun t op => op.apply t) s

/-- `align` is one of the power-of-two values `_Alignof` can produce. -/
def PowTwo (align : Int) : Prop := ∃ k : Nat, align = 2 ^ k

/-- Argument validity for each operation: what a well-formed call site may
pass (positive element sizes, power-of-two alignment, `isize`-representable
magnitudes; `Push` asserts `len, cap ≥ 0`; `arena_free` is given a pointer
previously returned from the arena — hence at or above `beg` — or NULL;
`vsnprintf` returns a nonnegative length; a restore target is a snapshot of
this same arena, no older than `beg`). -/
def Op.Valid : Op → TState → Prop
  | .alloc size align count _flags, _ =>
      1 ≤ size ∧ 1 ≤ count ∧ PowTwo align ∧ size < 2 ^ 63 ∧ count < 2 ^ 63
  | .allocInit size align count, _ =>
      1 ≤ size ∧ 1 ≤ count ∧ PowTwo align ∧ size < 2 ^ 63 ∧ count < 2 ^ 63
  | .sliceGrow _data len cap size align, _ =>
      1 ≤ size ∧ 0 ≤ len ∧ 0 ≤ cap ∧ PowTwo align ∧
      len + 10 * size < 2 ^ 63 ∧ cap + max (Int.tdiv cap 2) (10 * size) < 2 ^ 63 ∧
      size < 2 ^ 63
  | .reset, _ => True
  | .free ptr sz, s => 0 ≤ sz ∧ (ptr = 0 ∨ s.arena.beg ≤ ptr)
  | .format nbytes, _ => 0 ≤ nbytes ∧ nbytes + 1 < 2 ^ 63
  | .restore snap, s =>
      snap.beg = s.arena.beg ∧ snap.end_ = s.arena.end_ ∧
      s.arena.beg ≤ snap.cur ∧ snap.cur ≤ s.arena.end_

/-- A trace whose every operation is well-formed in the state it runs in. -/
inductive ValidTrace : TState → List Op → Prop
  | nil {s : TState} : ValidTrace s []
  | cons {s : TState} {op : Op} {ops : List Op} :
      op.Valid s → ValidTrace (op.apply s) ops → ValidTrace s (op :: ops)

/-- Ops that only allocate (no reset/restore/free): the cursor never moves
backwards across them, except for the one-byte `astr_format` retraction that
stays inside the block it just allocated. -/
def AllocOnly : Op → Prop
  | .alloc _ _ _ _ => True
  | .allocInit _ _ _ => True
  | .sliceGrow _ _ _ _ _ => True
  | .format _ => True
  | .reset => False
  | .free _ _ => False
  | .restore _ => False

/-- Two ranges share no byte. -/
def RDisjoint (r1 r2 : Range) : Prop := r1.hi ≤ r2.lo ∨ r2.hi ≤ r1.lo

/-- The trace invariant: `beg ≤ cur ≤ end`, every live returned range sits in
`[beg, cur)`-order below the cursor, and the live list is newest-first with
strictly descending, pairwise disjoint ranges. -/
def TInv (s : TState) : Prop :=
  s.arena.beg ≤ s.arena.cur ∧ s.arena.cur ≤ s.arena.end_ ∧
  (∀ r ∈ s.live, s.arena.beg ≤ r.lo ∧ r.lo ≤ r.hi ∧ r.hi ≤ s.arena.cur) ∧
  s.live.Pairwise fun r1 r2 => r2.hi ≤ r1.lo

section ArenaAllocLemmas

/-- For a nonnegative numerator the C truncating division agrees with
Euclidean division. -/
lemma tdiv_of_nonneg {x y : Int} (hx : 0 ≤ x) (hy : 0 ≤ y) :
    Int.tdiv x y = x / y := Int.tdiv_eq_ediv hx hy

/-- For a nonpositive numerator and nonnegative denominator the C truncating
division is nonpositive. -/
lemma tdiv_nonpos_of_nonpos {x y : Int} (hx : x ≤ 0) (hy : 0 ≤ y) :
    Int.tdiv x y ≤ 0 := by
  have h : Int.tdiv (-(-x)) y = -Int.tdiv (-x) y := Int.neg_tdiv (-x) y
  rw [neg_neg] at h
  rw [h]
  have : 0 ≤ Int.tdiv (-x) y := Int.tdiv_nonneg (by omega) hy
  omega

/-- If the capacity guard `count ≤ x tdiv size` holds for a positive count,
then `size * count ≤ x`. -/
lemma guard_mul_le {x size count : Int} (hs : 1 ≤ size) (hc : 1 ≤ count)
    (h : count ≤ Int.tdiv x size) : size * count ≤ x := by
  rcases le_or_lt 0 x with hx | hx
  · rw [tdiv_of_nonneg hx (by omega)] at h
    have := (Int.le_ediv_iff_mul_le (by omega : (0:Int) < size)).mp h
    nlinarith
  · have := tdiv_nonpos_of_nonpos (by omega : x ≤ 0) (by omega : (0:Int) ≤ size)
    omega

/-- If `size * count ≤ x` with `x` nonnegative then the capacity guard holds. -/
lemma mul_le_guard {x size count : Int} (hs : 1 ≤ size) (hc : 0 ≤ count)
    (h : size * count ≤ x) (hx : 0 ≤ x) : count ≤ Int.tdiv x size := by
  rw [tdiv_of_nonneg hx (by omega)]
  exact (Int.le_ediv_iff_mul_le (by omega : (0:Int) < size)).mpr (by nlinarith)

/-- The padding is in `[0, align)` for positive `align`. -/
lemma pad_of_bounds {cur align : Int} (ha : 1 ≤ align) :
    0 ≤ pad_of cur align ∧ pad_of cur align < align :=
  ⟨Int.emod_nonneg _ (by omega), Int.emod_lt_of_pos _ (by omega)⟩

/-- The padded cursor is a multiple of `align`. -/
lemma pad_of_aligned (cur : Int) {align : Int} (ha : 1 ≤ align) :
    (cur + pad_of cur align) % align = 0 := by
  unfold pad_of
  conv_lhs => rw [Int.add_emod]
  rw [Int.emod_emod_of_dvd _ dvd_rfl, ← Int.add_emod]
  simp

/-- `pad_of cur 1 = 0`: byte-aligned allocations start at the cursor. -/
lemma pad_of_one (cur : Int) : pad_of cur 1 = 0 := Int.emod_one _

/-- In-range `isize` values survive the `size_t` conversion. -/
lemma toSizeT_eq {x : Int} (h0 : 0 ≤ x) (h1 : x < 2 ^ 64) : toSizeT x = x :=
  Int.emod_eq_of_lt h0 h1

/-- With sufficient remaining capacity `arena_alloc` takes the fast path and
returns the padded cursor, bumping `cur` by `pad + size*count`. -/
lemma arena_alloc_success (a : Arena) {size align count : Int} (flags : ArenaFlag)
    (hs : 1 ≤ size) (hc : 0 ≤ count) (ha : 1 ≤ align)
    (hcap : pad_of a.cur align + size * count ≤ a.end_ - a.cur) :
    arena_alloc a size align count flags =
      .ok (a.cur + pad_of a.cur align)
          { a with cur := a.cur + pad_of a.cur align + size * count } := by
  have hpad := @pad_of_bounds a.cur _ ha
  have hguard : count ≤ Int.tdiv (a.end_ - a.cur - pad_of a.cur align) size :=
    mul_le_guard hs hc (by omega) (by nlinarith)
  unfold arena_alloc
  rw [if_pos hguard]

/-- Every successful allocation returns the padded cursor of the pre-state and
bumps `cur` by exactly the requested bytes; `beg` and `end` are untouched.
Without `OOM_COMMIT`, success can only come from the fast path. -/
lemma arena_alloc_ok_shape {a : Arena} {size align count : Int} {flags : ArenaFlag}
    {ptr : Int} {a' : Arena}
    (h : arena_alloc a size align count flags = .ok ptr a')
    (hs : 0 ≤ size) (hc : 0 ≤ count) (hs' : size < 2 ^ 63) (hc' : count < 2 ^ 63) :
    ptr = a.cur + pad_of a.cur align ∧
    a' = { a with cur := a.cur + pad_of a.cur align + size * count } ∧
    count ≤ Int.tdiv (a.end_ - a.cur - pad_of a.cur align) size := by
  unfold arena_alloc at h
  by_cases hfast : count ≤ Int.tdiv (a.end_ - a.cur - pad_of a.cur align) size
  · rw [if_pos hfast] at h
    injection h with h1 h2
    exact ⟨h1.symm, h2.symm, hfast⟩
  · exfalso
    rw [if_neg hfast] at h
    unfold arena_alloc_grow at h
    have hmul : arena_mul_overflow size count = some (size * count) ∨
        arena_mul_overflow size count = none := by
      unfold arena_mul_overflow
      rw [toSizeT_eq hs (by omega), toSizeT_eq hc (by omega)]
      split <;> simp
    rcases hmul with hmul | hmul <;> simp only [hmul] at h
    · rw [if_pos (show count ≥ Int.tdiv (a.end_ - a.cur - pad_of a.cur align) size from
        le_of_not_le hfast)] at h
      unfold handleOOM at h
      split at h <;> exact AllocResult.noConfusion h
    · unfold handleOOM at h
      split at h <;> exact AllocResult.noConfusion h

/-- A power-of-two alignment is positive. -/
lemma PowTwo.one_le {n : Int} (h : PowTwo n) : 1 ≤ n := by
  obtain ⟨k, rfl⟩ := h
  have : (0:Int) < 2 ^ k := by positivity
  omega

/-- A successful allocation with `count ≥ 1` moves the cursor forward by the
allocation and keeps it within `end`. -/
lemma arena_alloc_ok_bound {a : Arena} {size align count : Int} {flags : ArenaFlag}
    {ptr : Int} {a' : Arena}
    (h : arena_alloc a size align count flags = .ok ptr a')
    (hs : 1 ≤ size) (hc : 1 ≤ count) (ha : 1 ≤ align) (hce : a.cur ≤ a.end_)
    (hs' : size < 2 ^ 63) (hc' : count < 2 ^ 63) :
    a.cur ≤ ptr ∧ ptr + size * count = a'.cur ∧ a'.cur ≤ a.end_ ∧ 0 ≤ size * count := by
  obtain ⟨hptr, ha', hguard⟩ := arena_alloc_ok_shape h (by omega) (by omega) hs' hc'
  have hpad := @pad_of_bounds a.cur _ ha
  have hmul := guard_mul_le hs hc hguard
  have hsc : 0 ≤ size * count := mul_nonneg (by omega) (by omega)
  subst hptr
  subst ha'
  refine ⟨by omega, rfl, ?_, hsc⟩
  show a.cur + pad_of a.cur align + size * count ≤ a.end_
  omega

/-- An allocation that fails with NULL leaves the arena exactly as it was. -/
lemma arena_alloc_oomNull_eq {a a' : Arena} {size align count : Int}
    {flags : ArenaFlag}
    (h : arena_alloc a size align count flags = .oomNull a') : a' = a := by
  unfold arena_alloc arena_alloc_grow handleOOM at h
  repeat' split at h
  all_goals
    first
      | exact AllocResult.noConfusion h
      | (injection h with h1; exact h1.symm)

/-- An allocation that fails into the recovery point leaves the arena exactly
as it was before the failed call. -/
lemma arena_alloc_oomJump_eq {a a' : Arena} {size align count : Int}
    {flags : ArenaFlag}
    (h : arena_alloc a size align count flags = .oomJump a') : a' = a := by
  unfold arena_alloc arena_alloc_grow handleOOM at h
  repeat' split at h
  all_goals
    first
      | exact AllocResult.noConfusion h
      | (injection h with h1; exact h1.symm)

end ArenaAllocLemmas

/-- C3: a request whose `elem_size * count` overflows the signed size type is
routed to the OOM policy decision point (`HANDLE_OOM`: trap / longjmp to the
recovery point / NULL under `_OOM_NULL`) and never returns an allocation of
wrapped or truncated size.  The capacity guard of the fast path cannot pass
because the overflowing product exceeds every in-range availability, and the
slow path reports overflow before touching the arena. -/
theorem c3_overflow_routes_to_oom (a : Arena) (size align count : Int)
    (flags : ArenaFlag)
    (hs : 1 ≤ size) (hc : 0 ≤ count) (hal : 1 ≤ align)
    (hs' : size < 2 ^ 63) (hc' : count < 2 ^ 63)
    (hspan : a.end_ - a.cur < 2 ^ 63)
    (hov : 2 ^ 63 ≤ size * count) :
    arena_alloc a size align count flags = handleOOM a flags ∧
    ∀ ptr a', arena_alloc a size align count flags ≠ .ok ptr a' := by
  have hcpos : 1 ≤ count := by
    rcases lt_or_le count 1 with hlt | hle
    · have h0 : count = 0 := by omega
      rw [h0, mul_zero] at hov
      omega
    · exact hle
  have hpad := @pad_of_bounds a.cur _ hal
  have hfastfail : ¬ count ≤ Int.tdiv (a.end_ - a.cur - pad_of a.cur align) size := by
    intro hle
    have := guard_mul_le hs hcpos hle
    omega
  have hovf : arena_mul_overflow size count = none := by
    unfold arena_mul_overflow
    rw [toSizeT_eq (by omega) (by omega), toSizeT_eq (by omega) (by omega)]
    rw [if_neg (by omega)]
  unfold arena_alloc
  rw [if_neg hfastfail]
  unfold arena_alloc_grow
  simp only [hovf]
  refine ⟨trivial, ?_⟩
  intro ptr a' hcontra
  unfold handleOOM at hcontra
  split at hcontra <;> exact AllocResult.noConfusion hcontra

/-- C3 witness: a `2^32 × 2^32` element request overflows `isize` and is
routed to the recovery point, with the arena state untouched. -/
theorem c3_overflow_routes_to_oom_witness :
    arena_alloc ⟨0, 0, 8⟩ (2 ^ 32) 1 (2 ^ 32) ⟨0⟩ = handleOOM ⟨0, 0, 8⟩ ⟨0⟩ ∧
    ∀ ptr a', arena_alloc ⟨0, 0, 8⟩ (2 ^ 32) 1 (2 ^ 32) ⟨0⟩ ≠ .ok ptr a' :=
  c3_overflow_routes_to_oom ⟨0, 0, 8⟩ (2 ^ 32) 1 (2 ^ 32) ⟨0⟩
    (by norm_num) (by norm_num) (by norm_num) (by norm_num) (by norm_num)
    (by norm_num) (by norm_num)

/-- C4: an allocation that fails with exhaustion leaves the arena unchanged:
under `_OOM_NULL` the call returns NULL with the pre-call cursor, and in
recovery-point mode the state observable at the recovery point has exactly
the pre-call cursor. -/
theorem c4_oom_preserves_state (a : Arena) (size align count : Int)
    (flags : ArenaFlag) :
    (∀ a', arena_alloc a size align count flags = .oomNull a' →
      a'.cur = a.cur ∧ a' = a) ∧
    (∀ a', arena_alloc a size align count flags = .oomJump a' →
      a'.cur = a.cur ∧ a' = a) := by
  constructor <;> intro a' h
  · have he := arena_alloc_oomNull_eq h
    exact ⟨by rw [he], he⟩
  · have he := arena_alloc_oomJump_eq h
    exact ⟨by rw [he], he⟩

/-- C4 witness: an exhausted 0-byte arena fails a 1-byte `OOM_NULL` request
and is returned unchanged. -/
theorem c4_oom_preserves_state_witness :
    (⟨0, 0, 0⟩ : Arena).cur = (⟨0, 0, 0⟩ : Arena).cur ∧
    (⟨0, 0, 0⟩ : Arena) = ⟨0, 0, 0⟩ :=
  (c4_oom_preserves_state ⟨0, 0, 0⟩ 1 1 1 OOM_NULL).1 ⟨0, 0, 0⟩ (by decide)

/-- C7: in a fixed 1024-byte arena, an 800-byte 1-aligned allocation succeeds
at `beg`; the following 300-byte `OOM_NULL` allocation fails with NULL and
leaves the cursor unchanged; after `arena_reset` the same 300-byte request
succeeds and returns the arena's `beg`, the very address of the original
800-byte allocation. -/
theorem c7_fixed_arena_scenario :
    arena_init 4096 1024 = ⟨4096, 4096, 5120⟩ ∧
    arena_alloc ⟨4096, 4096, 5120⟩ 1 1 800 ⟨0⟩ = .ok 4096 ⟨4096, 4896, 5120⟩ ∧
    arena_alloc ⟨4096, 4896, 5120⟩ 1 1 300 OOM_NULL =
      .oomNull ⟨4096, 4896, 5120⟩ ∧
    arena_reset ⟨4096, 4896, 5120⟩ = ⟨4096, 4096, 5120⟩ ∧
    arena_alloc ⟨4096, 4096, 5120⟩ 1 1 300 ⟨0⟩ = .ok 4096 ⟨4096, 4396, 5120⟩ := by
  decide

/-- C10 counterexample: with `begin ≤ cursor ≤ end`, `size = 4 ≥ 1` and
`count = 0 ≥ 0`, the fast-path guard `count ≤ (avail - pad) / size` holds
(C division truncates `-1/4` to `0`), yet `size*count = 0` is NOT at most
`avail - pad = -1` and the advanced cursor `4` exceeds `end = 3`. -/
theorem c10_counterexample :
    ((0:Int) ≤ Int.tdiv ((⟨0, 3, 3⟩ : Arena).end_ - (⟨0, 3, 3⟩ : Arena).cur -
        pad_of (⟨0, 3, 3⟩ : Arena).cur 4) 4) ∧
    arena_alloc ⟨0, 3, 3⟩ 4 4 0 ⟨0⟩ = .ok 4 ⟨0, 4, 3⟩ ∧
    ¬((4:Int) * 0 ≤ (⟨0, 3, 3⟩ : Arena).end_ - (⟨0, 3, 3⟩ : Arena).cur -
        pad_of (⟨0, 3, 3⟩ : Arena).cur 4) ∧
    ¬((⟨0, 4, 3⟩ : Arena).cur ≤ (⟨0, 4, 3⟩ : Arena).end_) := by
  decide

/-- C10 (amended: `count ≥ 1`; a zero-count request can pass the guard with
negative `avail - pad` and overshoot `end` by part of the padding): under the
fast-path guard the unchecked product `size * count` is bounded by
`avail - pad`, hence cannot overflow `isize` when the committed span fits
`isize`, and the advanced cursor stays within `end`.  `size ≥ 1` is required
throughout (the guard's division needs a nonzero divisor). -/
theorem c10_fast_path_safe (a : Arena) (size align count : Int) (flags : ArenaFlag)
    (hbc : a.beg ≤ a.cur) (hce : a.cur ≤ a.end_)
    (hs : 1 ≤ size) (hc : 1 ≤ count) (hal : PowTwo align)
    (hs' : size < 2 ^ 63) (hc' : count < 2 ^ 63)
    (hguard : count ≤ Int.tdiv (a.end_ - a.cur - pad_of a.cur align) size) :
    0 ≤ size * count ∧
    size * count ≤ a.end_ - a.cur - pad_of a.cur align ∧
    arena_alloc a size align count flags =
      .ok (a.cur + pad_of a.cur align)
          { a with cur := a.cur + pad_of a.cur align + size * count } ∧
    a.cur + pad_of a.cur align + size * count ≤ a.end_ ∧
    (a.end_ - a.beg < 2 ^ 63 → size * count < 2 ^ 63) := by
  have hone := hal.one_le
  have hpad := @pad_of_bounds a.cur _ hone
  have hmul := guard_mul_le hs hc hguard
  have hsc : 0 ≤ size * count := mul_nonneg (by omega) (by omega)
  refine ⟨hsc, hmul, ?_, by omega, by omega⟩
  unfold arena_alloc
  rw [if_pos hguard]

/-- C10 witness: a 4-aligned `4 × 5` request in a fresh 100-byte arena. -/
theorem c10_fast_path_safe_witness :
    0 ≤ (4:Int) * 5 ∧
    (4:Int) * 5 ≤ (⟨0, 0, 100⟩ : Arena).end_ - (⟨0, 0, 100⟩ : Arena).cur -
      pad_of (⟨0, 0, 100⟩ : Arena).cur 4 ∧
    arena_alloc ⟨0, 0, 100⟩ 4 4 5 ⟨0⟩ =
      .ok ((⟨0, 0, 100⟩ : Arena).cur + pad_of (⟨0, 0, 100⟩ : Arena).cur 4)
          { (⟨0, 0, 100⟩ : Arena) with
              cur := (⟨0, 0, 100⟩ : Arena).cur +
                pad_of (⟨0, 0, 100⟩ : Arena).cur 4 + 4 * 5 } ∧
    (⟨0, 0, 100⟩ : Arena).cur + pad_of (⟨0, 0, 100⟩ : Arena).cur 4 + 4 * 5 ≤
      (⟨0, 0, 100⟩ : Arena).end_ ∧
    ((⟨0, 0, 100⟩ : Arena).end_ - (⟨0, 0, 100⟩ : Arena).beg < 2 ^ 63 →
      (4:Int) * 5 < 2 ^ 63) :=
  c10_fast_path_safe ⟨0, 0, 100⟩ 4 4 5 ⟨0⟩ (by decide) (by decide) (by decide)
    (by decide) ⟨2, by norm_num⟩ (by norm_num) (by norm_num) (by decide)

/-- C2: a valid request (`size ≥ 1`, power-of-two `align`, `count ≥ 0`, no
overflow, sufficient remaining capacity) succeeds with an address that is a
multiple of `align`, and the byte range of any subsequent successful
allocation from the resulting arena shares no byte with it. -/
theorem c2_aligned_and_disjoint (a : Arena) (size align count : Int)
    (flags : ArenaFlag)
    (hs : 1 ≤ size) (hal : PowTwo align) (hc : 0 ≤ count)
    (hs' : size < 2 ^ 63) (hc' : count < 2 ^ 63)
    (hcap : pad_of a.cur align + size * count ≤ a.end_ - a.cur) :
    ∃ a', arena_alloc a size align count flags =
        .ok (a.cur + pad_of a.cur align) a' ∧
      (a.cur + pad_of a.cur align) % align = 0 ∧
      ∀ size2 align2 count2 flags2 ptr2 a'',
        0 ≤ size2 → size2 < 2 ^ 63 → 0 ≤ count2 → count2 < 2 ^ 63 →
        PowTwo align2 →
        arena_alloc a' size2 align2 count2 flags2 = .ok ptr2 a'' →
        a.cur + pad_of a.cur align + size * count ≤ ptr2 ∧
        ∀ x : Int,
          ¬((a.cur + pad_of a.cur align ≤ x ∧
             x < a.cur + pad_of a.cur align + size * count) ∧
            (ptr2 ≤ x ∧ x < ptr2 + size2 * count2)) := by
  have hone := hal.one_le
  refine ⟨{ a with cur := a.cur + pad_of a.cur align + size * count },
    arena_alloc_success a flags hs hc hone hcap, pad_of_aligned a.cur hone, ?_⟩
  intro size2 align2 count2 flags2 ptr2 a'' hs2 hs2' hc2 hc2' hal2 h2
  obtain ⟨hptr2, -, -⟩ := arena_alloc_ok_shape h2 hs2 hc2 hs2' hc2'
  have hpad2 := @pad_of_bounds
    ({ a with cur := a.cur + pad_of a.cur align + size * count } : Arena).cur _
    hal2.one_le
  constructor
  · rw [hptr2]
    show a.cur + pad_of a.cur align + size * count ≤
      a.cur + pad_of a.cur align + size * count + _
    omega
  · intro x hx
    rw [hptr2] at hx
    revert hx
    show ¬((_ ≤ x ∧ x < _) ∧ (a.cur + pad_of a.cur align + size * count + _ ≤ x ∧ _))
    omega

/-- C2 witness: a 2-aligned `2 × 3` request in a fresh 64-byte arena, with the
disjointness guarantee quantified over any next allocation. -/
theorem c2_aligned_and_disjoint_witness :
    ∃ a', arena_alloc ⟨0, 0, 64⟩ 2 2 3 ⟨0⟩ =
        .ok ((⟨0, 0, 64⟩ : Arena).cur + pad_of (⟨0, 0, 64⟩ : Arena).cur 2) a' ∧
      ((⟨0, 0, 64⟩ : Arena).cur + pad_of (⟨0, 0, 64⟩ : Arena).cur 2) % 2 = 0 ∧
      ∀ size2 align2 count2 flags2 ptr2 a'',
        0 ≤ size2 → size2 < 2 ^ 63 → 0 ≤ count2 → count2 < 2 ^ 63 →
        PowTwo align2 →
        arena_alloc a' size2 align2 count2 flags2 = .ok ptr2 a'' →
        (⟨0, 0, 64⟩ : Arena).cur + pad_of (⟨0, 0, 64⟩ : Arena).cur 2 + 2 * 3 ≤ ptr2 ∧
        ∀ x : Int,
          ¬(((⟨0, 0, 64⟩ : Arena).cur + pad_of (⟨0, 0, 64⟩ : Arena).cur 2 ≤ x ∧
             x < (⟨0, 0, 64⟩ : Arena).cur + pad_of (⟨0, 0, 64⟩ : Arena).cur 2 + 2 * 3) ∧
            (ptr2 ≤ x ∧ x < ptr2 + size2 * count2)) :=
  c2_aligned_and_disjoint ⟨0, 0, 64⟩ 2 2 3 ⟨0⟩ (by decide) ⟨1, by norm_num⟩
    (by decide) (by norm_num) (by norm_num) (by decide)

/-- C8 counterexample: splitting `"a,bb,,c"` by `","` does NOT yield the
empty token: when the separator occurs at the start of the remaining slice
(`res == slice.data`), `_astr_split` returns the whole remaining slice, so
the third token is `",c"` rather than `""` followed by `"c"`. -/
theorem c8_counterexample :
    astr_split ['a', ',', 'b', 'b', ',', ',', 'c'] [','] ≠
      [['a'], ['b', 'b'], [], ['c']] ∧
    astr_split ['a', ',', 'b', 'b', ',', ',', 'c'] [','] ≠
      [['a'], ['b', 'b'], [], ['c'], []] := by
  decide

/-- C8 (amended): iterating the split-by-separator iterator with separator
`","` over `"a,bb,,c"` yields exactly the tokens `"a"`, `"bb"`, `",c"`: an
occurrence of the separator at the very start of the remaining slice makes
`_astr_split` return the entire remaining slice as the token. -/
theorem c8_split_tokens :
    astr_split ['a', ',', 'b', 'b', ',', ',', 'c'] [','] =
      [['a'], ['b', 'b'], [',', 'c']] := by
  decide

section TraceLemmas

/-- Recording a valid `arena_alloc` outcome preserves the trace invariant,
and the freshly returned range starts at or above the old cursor. -/
lemma pushAlloc_inv {s : TState} {size align count : Int} {flags : ArenaFlag}
    (hI : TInv s) (hs : 1 ≤ size) (hc : 1 ≤ count) (ha : 1 ≤ align)
    (hs' : size < 2 ^ 63) (hc' : count < 2 ^ 63) :
    TInv (pushAlloc s (arena_alloc s.arena size align count flags) size count) := by
  obtain ⟨h1, h2, h3, h4⟩ := hI
  cases hres : arena_alloc s.arena size align count flags with
  | oomNull a' => exact ⟨h1, h2, h3, h4⟩
  | oomJump a' => exact ⟨h1, h2, h3, h4⟩
  | ok ptr a' =>
    obtain ⟨hcp, hpc, hpe, hsc⟩ :=
      arena_alloc_ok_bound hres hs hc ha h2 hs' hc'
    obtain ⟨hptr, ha', -⟩ := arena_alloc_ok_shape hres (by omega) (by omega) hs' hc'
    have hbeg : a'.beg = s.arena.beg := by rw [ha']
    have hend : a'.end_ = s.arena.end_ := by rw [ha']
    show TInv ⟨a', ⟨ptr, ptr + size * count⟩ :: s.live⟩
    refine ⟨?_, ?_, ?_, ?_⟩
    · show a'.beg ≤ a'.cur
      omega
    · show a'.cur ≤ a'.end_
      omega
    · intro r hr
      rcases List.mem_cons.mp hr with hhd | htl
      · subst hhd
        dsimp only
        constructor
        · omega
        · constructor <;> omega
      · obtain ⟨hra, hrb, hrc⟩ := h3 r htl
        refine ⟨?_, hrb, ?_⟩
        · show a'.beg ≤ r.lo
          omega
        · show r.hi ≤ a'.cur
          omega
    · refine List.pairwise_cons.mpr ⟨?_, h4⟩
      intro r hr
      obtain ⟨-, -, hrc⟩ := h3 r hr
      show r.hi ≤ ptr
      omega

/-- Applying any valid operation preserves the trace invariant. -/
lemma apply_inv {s : TState} {op : Op} (hI : TInv s) (hV : op.Valid s) :
    TInv (op.apply s) := by
  cases op with
  | alloc size align count flags =>
    obtain ⟨hs, hc, hal, hs', hc'⟩ := hV
    exact pushAlloc_inv hI hs hc hal.one_le hs' hc'
  | allocInit size align count =>
    obtain ⟨hs, hc, hal, hs', hc'⟩ := hV
    show TInv (pushAlloc s (arena_alloc_init s.arena size align count) size count)
    unfold arena_alloc_init
    exact pushAlloc_inv hI hs hc hal.one_le hs' hc'
  | sliceGrow data len cap size align =>
    obtain ⟨hs, hlen, hcap, hal, hb1, hb2, hs'⟩ := hV
    have hmax : 10 * size ≤ max (Int.tdiv cap 2) (10 * size) := le_max_right _ _
    show TInv (Op.apply (.sliceGrow data len cap size align) s)
    simp only [Op.apply]
    split
    · exact pushAlloc_inv hI hs (by omega) hal.one_le hs' (by omega)
    · split
      · exact pushAlloc_inv hI hs (by omega) (by omega) hs' (by omega)
      · exact pushAlloc_inv hI hs (by omega) hal.one_le hs' hb2
  | reset =>
    obtain ⟨h1, h2, h3, h4⟩ := hI
    exact ⟨le_refl _, by show s.arena.beg ≤ s.arena.end_; omega,
      by intro r hr; exact absurd hr (List.not_mem_nil r), List.Pairwise.nil⟩
  | free ptr sz =>
    obtain ⟨hsz, hp⟩ := hV
    obtain ⟨h1, h2, h3, h4⟩ := hI
    show TInv (Op.apply (.free ptr sz) s)
    simp only [Op.apply]
    split
    · exact ⟨h1, h2, h3, h4⟩
    · split
      · rename_i h0 heq
        have hbp : s.arena.beg ≤ ptr := by
          rcases hp with hp | hp
          · exact absurd hp h0
          · exact hp
        unfold arena_free
        rw [if_neg h0, if_pos heq]
        refine ⟨hbp, by show ptr ≤ s.arena.end_; omega, ?_, ?_⟩
        · intro r hr
          obtain ⟨hrm, hrp⟩ := List.mem_filter.mp hr
          have hrc : r.hi ≤ ptr := of_decide_eq_true hrp
          obtain ⟨hra, hrb, -⟩ := h3 r hrm
          exact ⟨hra, hrb, hrc⟩
        · exact List.Pairwise.sublist (List.filter_sublist _) h4
      · exact ⟨h1, h2, h3, h4⟩
  | format nbytes =>
    obtain ⟨hn, hn'⟩ := hV
    obtain ⟨h1, h2, h3, h4⟩ := hI
    show TInv (Op.apply (.format nbytes) s)
    simp only [Op.apply]
    cases hres : arena_alloc s.arena 1 1 (nbytes + 1) NO_INIT with
    | oomNull a' => exact ⟨h1, h2, h3, h4⟩
    | oomJump a' => exact ⟨h1, h2, h3, h4⟩
    | ok ptr a' =>
      obtain ⟨hcp, hpc, hpe, -⟩ :=
        arena_alloc_ok_bound hres (by omega) (by omega) (by omega) h2
          (by norm_num) hn'
      obtain ⟨hptr, ha', -⟩ :=
        arena_alloc_ok_shape hres (by omega) (by omega) (by norm_num) hn'
      have hbeg : a'.beg = s.arena.beg := by rw [ha']
      have hend : a'.end_ = s.arena.end_ := by rw [ha']
      have hone : (1:Int) * (nbytes + 1) = nbytes + 1 := one_mul _
      show TInv ⟨{ a' with cur := a'.cur - 1 }, ⟨ptr, ptr + nbytes⟩ :: s.live⟩
      refine ⟨?_, ?_, ?_, ?_⟩
      · show a'.beg ≤ a'.cur - 1
        omega
      · show a'.cur - 1 ≤ a'.end_
        omega
      · intro r hr
        rcases List.mem_cons.mp hr with hhd | htl
        · subst hhd
          refine ⟨by dsimp only; omega, by dsimp only; omega, ?_⟩
          show ptr + nbytes ≤ a'.cur - 1
          omega
        · obtain ⟨hra, hrb, hrc⟩ := h3 r htl
          refine ⟨?_, hrb, ?_⟩
          · show a'.beg ≤ r.lo
            omega
          · show r.hi ≤ a'.cur - 1
            omega
      · refine List.pairwise_cons.mpr ⟨?_, h4⟩
        intro r hr
        obtain ⟨-, -, hrc⟩ := h3 r hr
        show r.hi ≤ ptr
        omega
  | restore snap =>
    obtain ⟨hb, he, hc1, hc2⟩ := hV
    obtain ⟨h1, h2, h3, h4⟩ := hI
    show TInv (Op.apply (.restore snap) s)
    unfold Op.apply arena_default_restore
    refine ⟨by show s.arena.beg ≤ snap.cur; omega,
      by show snap.cur ≤ s.arena.end_; omega, ?_, ?_⟩
    · intro r hr
      obtain ⟨hrm, hrp⟩ := List.mem_filter.mp hr
      have hrc : r.hi ≤ snap.cur := of_decide_eq_true hrp
      obtain ⟨hra, hrb, -⟩ := h3 r hrm
      exact ⟨hra, hrb, hrc⟩
    · exact List.Pairwise.sublist (List.filter_sublist _) h4

/-- The trace invariant is preserved along any valid trace. -/
lemma runOps_inv {ops : List Op} {s : TState} (hI : TInv s)
    (hV : ValidTrace s ops) : TInv (runOps s ops) := by
  induction ops generalizing s with
  | nil => exact hI
  | cons op ops ih =>
    cases hV with
    | cons hv hrest =>
      show TInv (runOps (op.apply s) ops)
      exact ih (apply_inv hI hv) hrest

/-- A freshly initialised fixed-buffer arena satisfies the trace invariant. -/
lemma arena_init_inv {buf size : Int} (hbuf : buf ≠ 0) (hsz : 0 ≤ size) :
    TInv ⟨arena_init buf size, []⟩ := by
  unfold TInv arena_init
  rw [if_pos hbuf]
  exact ⟨le_refl _, by dsimp only; omega,
    by intro r hr; exact absurd hr (List.not_mem_nil r), List.Pairwise.nil⟩

end TraceLemmas

/-- C1 counterexample: a sequence of two `arena_alloc` operations on a fixed
2-byte arena breaks `cursor ≤ limit`.  The second call asks for zero elements
of size 8 at alignment 8; the padding (1 byte) exceeds the empty remaining
space, yet the guard `0 ≤ (avail - pad) / size` passes because C division
truncates `-1/8` to `0`, so the cursor advances past `end`. -/
theorem c1_counterexample :
    (runOps ⟨arena_init 5 2, []⟩
        [Op.alloc 1 1 2 ⟨0⟩, Op.alloc 8 8 0 ⟨0⟩]).arena = ⟨5, 8, 7⟩ ∧
    ¬((runOps ⟨arena_init 5 2, []⟩
        [Op.alloc 1 1 2 ⟨0⟩, Op.alloc 8 8 0 ⟨0⟩]).arena.cur ≤
      (runOps ⟨arena_init 5 2, []⟩
        [Op.alloc 1 1 2 ⟨0⟩, Op.alloc 8 8 0 ⟨0⟩]).arena.end_) := by
  decide

/-- C1 (amended: every `arena_alloc`/`arena_alloc_init` operation must
request `count ≥ 1` — a zero-count request can overshoot `limit` by part of
the alignment padding, see the counterexample): along any sequence of valid
operations (alloc, alloc_init, slice_grow, reset, free, format with its
cursor retraction, snapshot/restore) on an initialised fixed arena,
`begin ≤ cursor ≤ limit` holds, every live returned range lies within
`[begin, limit)`, and the live returned ranges are pairwise disjoint. -/
theorem c1_trace_invariant (buf size : Int) (ops : List Op)
    (hbuf : buf ≠ 0) (hsz : 0 ≤ size)
    (hV : ValidTrace ⟨arena_init buf size, []⟩ ops) :
    TInv (runOps ⟨arena_init buf size, []⟩ ops) ∧
    (∀ r ∈ (runOps ⟨arena_init buf size, []⟩ ops).live,
      (runOps ⟨arena_init buf size, []⟩ ops).arena.beg ≤ r.lo ∧
      r.hi ≤ (runOps ⟨arena_init buf size, []⟩ ops).arena.end_) ∧
    (runOps ⟨arena_init buf size, []⟩ ops).live.Pairwise RDisjoint := by
  have h := runOps_inv (arena_init_inv hbuf hsz) hV
  obtain ⟨h1, h2, h3, h4⟩ := h
  refine ⟨⟨h1, h2, h3, h4⟩, ?_, ?_⟩
  · intro r hr
    obtain ⟨hra, hrb, hrc⟩ := h3 r hr
    exact ⟨hra, le_trans hrc h2⟩
  · exact h4.imp fun h => Or.inr h

/-- C1 witness: one 3-byte allocation in a fresh 100-byte arena at `64`. -/
theorem c1_trace_invariant_witness :
    TInv (runOps ⟨arena_init 64 100, []⟩ [Op.alloc 1 1 3 ⟨0⟩]) ∧
    (∀ r ∈ (runOps ⟨arena_init 64 100, []⟩ [Op.alloc 1 1 3 ⟨0⟩]).live,
      (runOps ⟨arena_init 64 100, []⟩ [Op.alloc 1 1 3 ⟨0⟩]).arena.beg ≤ r.lo ∧
      r.hi ≤ (runOps ⟨arena_init 64 100, []⟩ [Op.alloc 1 1 3 ⟨0⟩]).arena.end_) ∧
    (runOps ⟨arena_init 64 100, []⟩ [Op.alloc 1 1 3 ⟨0⟩]).live.Pairwise RDisjoint :=
  c1_trace_invariant 64 100 [Op.alloc 1 1 3 ⟨0⟩] (by decide) (by decide)
    (ValidTrace.cons
      ⟨by decide, by decide, ⟨0, by norm_num⟩, by norm_num, by norm_num⟩
      ValidTrace.nil)

section SnapshotRestore

/-- Recording an allocation outcome never moves the cursor backwards, and
every newly recorded range starts at or above the pre-call cursor. -/
lemma pushAlloc_mono {s : TState} {size align count : Int} {flags : ArenaFlag}
    (hs : 1 ≤ size) (hc : 0 ≤ count) (ha : 1 ≤ align)
    (hs' : size < 2 ^ 63) (hc' : count < 2 ^ 63) :
    s.arena.cur ≤
      (pushAlloc s (arena_alloc s.arena size align count flags) size count).arena.cur ∧
    ∃ new, (pushAlloc s (arena_alloc s.arena size align count flags) size
        count).live = new ++ s.live ∧
      ∀ r ∈ new, s.arena.cur ≤ r.lo := by
  cases hres : arena_alloc s.arena size align count flags with
  | oomNull a' => exact ⟨le_refl _, [], rfl, by intro r hr; cases hr⟩
  | oomJump a' => exact ⟨le_refl _, [], rfl, by intro r hr; cases hr⟩
  | ok ptr a' =>
    obtain ⟨hptr, ha', -⟩ := arena_alloc_ok_shape hres (by omega) hc hs' hc'
    have hpad := @pad_of_bounds s.arena.cur _ ha
    have hsc : 0 ≤ size * count := mul_nonneg (by omega) hc
    have hcur : a'.cur = s.arena.cur + pad_of s.arena.cur align + size * count := by
      rw [ha']
    refine ⟨?_, [⟨ptr, ptr + size * count⟩], rfl, ?_⟩
    · show s.arena.cur ≤ a'.cur
      omega
    · intro r hr
      rw [List.mem_singleton] at hr
      subst hr
      show s.arena.cur ≤ ptr
      omega

/-- An alloc-only valid operation never moves the cursor backwards and only
prepends ranges starting at or above the pre-operation cursor. -/
lemma apply_allocOnly_mono {s : TState} {op : Op}
    (hA : AllocOnly op) (hV : op.Valid s) :
    s.arena.cur ≤ (op.apply s).arena.cur ∧
    ∃ new, (op.apply s).live = new ++ s.live ∧
      ∀ r ∈ new, s.arena.cur ≤ r.lo := by
  cases op with
  | alloc size align count flags =>
    obtain ⟨hs, hc, hal, hs', hc'⟩ := hV
    exact pushAlloc_mono hs (by omega) hal.one_le hs' hc'
  | allocInit size align count =>
    obtain ⟨hs, hc, hal, hs', hc'⟩ := hV
    show s.arena.cur ≤
        (pushAlloc s (arena_alloc_init s.arena size align count) size count).arena.cur ∧ _
    unfold arena_alloc_init
    exact pushAlloc_mono hs (by omega) hal.one_le hs' hc'
  | sliceGrow data len cap size align =>
    obtain ⟨hs, hlen, hcap, hal, hb1, hb2, hs'⟩ := hV
    have hmax : 10 * size ≤ max (Int.tdiv cap 2) (10 * size) := le_max_right _ _
    show s.arena.cur ≤ ((Op.sliceGrow data len cap size align).apply s).arena.cur ∧ _
    simp only [Op.apply]
    split
    · exact pushAlloc_mono hs (by omega) hal.one_le hs' (by omega)
    · split
      · exact pushAlloc_mono hs (by omega) (by omega) hs' (by omega)
      · exact pushAlloc_mono hs (by omega) hal.one_le hs' hb2
  | reset => cases hA
  | free ptr sz => cases hA
  | format nbytes =>
    obtain ⟨hn, hn'⟩ := hV
    show s.arena.cur ≤ ((Op.format nbytes).apply s).arena.cur ∧ _
    simp only [Op.apply]
    cases hres : arena_alloc s.arena 1 1 (nbytes + 1) NO_INIT with
    | oomNull a' => exact ⟨le_refl _, [], rfl, by intro r hr; cases hr⟩
    | oomJump a' => exact ⟨le_refl _, [], rfl, by intro r hr; cases hr⟩
    | ok ptr a' =>
      obtain ⟨hptr, ha', -⟩ :=
        arena_alloc_ok_shape hres (by omega) (by omega) (by norm_num) hn'
      rw [pad_of_one] at hptr
      have hcur : a'.cur = s.arena.cur + pad_of s.arena.cur 1 + 1 * (nbytes + 1) := by
        rw [ha']
      rw [pad_of_one, one_mul] at hcur
      refine ⟨?_, [⟨ptr, ptr + nbytes⟩], rfl, ?_⟩
      · show s.arena.cur ≤ a'.cur - 1
        omega
      · intro r hr
        rw [List.mem_singleton] at hr
        subst hr
        show s.arena.cur ≤ ptr
        omega
  | restore snap => cases hA

/-- Along an alloc-only valid trace the cursor is monotone and every new live
range starts at or above the starting cursor. -/
lemma runOps_allocOnly_mono {ops : List Op} {s : TState}
    (hA : ∀ op ∈ ops, AllocOnly op) (hV : ValidTrace s ops) :
    s.arena.cur ≤ (runOps s ops).arena.cur ∧
    ∃ new, (runOps s ops).live = new ++ s.live ∧
      ∀ r ∈ new, s.arena.cur ≤ r.lo := by
  induction ops generalizing s with
  | nil => exact ⟨le_refl _, [], rfl, by intro r hr; cases hr⟩
  | cons op ops ih =>
    cases hV with
    | cons hv hrest =>
      obtain ⟨hm1, new1, hl1, hr1⟩ :=
        apply_allocOnly_mono (hA op (List.mem_cons_self op ops)) hv
      obtain ⟨hm2, new2, hl2, hr2⟩ :=
        ih (fun o ho => hA o (List.mem_cons_of_mem op ho)) hrest
      refine ⟨le_trans hm1 hm2, new2 ++ new1, ?_, ?_⟩
      · show (runOps (op.apply s) ops).live = _
        rw [hl2, hl1, List.append_assoc]
      · intro r hr
        rcases List.mem_append.mp hr with h2 | h1
        · exact le_trans hm1 (hr2 r h2)
        · exact hr1 r h1

end SnapshotRestore

/-- C9: for any arena state, taking a snapshot (a copy of the `Arena` value)
and restoring it after any alloc-only valid trace sets the cursor back to the
snapshot's cursor; every allocation recorded strictly between snapshot and
restore starts at or above the restored cursor (hence is unreachable from
`[beg, cursor)` afterwards); and applying the same restore a second time is a
no-op on the whole state (idempotence, in particular on the cursor). -/
theorem c9_snapshot_restore_idempotent (s : TState) (ops : List Op)
    (hA : ∀ op ∈ ops, AllocOnly op) (hV : ValidTrace s ops) :
    ((Op.restore s.arena).apply (runOps s ops)).arena =
      arena_default_restore (runOps s ops).arena s.arena ∧
    ((Op.restore s.arena).apply (runOps s ops)).arena.cur = s.arena.cur ∧
    (∃ new, (runOps s ops).live = new ++ s.live ∧
      ∀ r ∈ new, s.arena.cur ≤ r.lo) ∧
    (Op.restore s.arena).apply ((Op.restore s.arena).apply (runOps s ops)) =
      (Op.restore s.arena).apply (runOps s ops) := by
  obtain ⟨-, hnew⟩ := runOps_allocOnly_mono hA hV
  refine ⟨rfl, rfl, hnew, ?_⟩
  show (⟨_, _⟩ : TState) = ⟨_, _⟩
  simp only [Op.apply, arena_default_restore, List.filter_filter]
  congr 1
  apply List.filter_congr
  intro r hr
  simp [Bool.and_self]

/-- C9 witness: a 4-byte allocation between snapshot and restore of a fresh
40-byte arena. -/
theorem c9_snapshot_restore_idempotent_witness :
    ((Op.restore (⟨8, 8, 40⟩ : Arena)).apply
        (runOps ⟨⟨8, 8, 40⟩, []⟩ [Op.alloc 1 1 4 ⟨0⟩])).arena =
      arena_default_restore
        (runOps ⟨⟨8, 8, 40⟩, []⟩ [Op.alloc 1 1 4 ⟨0⟩]).arena ⟨8, 8, 40⟩ ∧
    ((Op.restore (⟨8, 8, 40⟩ : Arena)).apply
        (runOps ⟨⟨8, 8, 40⟩, []⟩ [Op.alloc 1 1 4 ⟨0⟩])).arena.cur =
      (⟨8, 8, 40⟩ : Arena).cur ∧
    (∃ new, (runOps ⟨⟨8, 8, 40⟩, []⟩ [Op.alloc 1 1 4 ⟨0⟩]).live = new ++ [] ∧
      ∀ r ∈ new, (⟨8, 8, 40⟩ : Arena).cur ≤ r.lo) ∧
    (Op.restore (⟨8, 8, 40⟩ : Arena)).apply
        ((Op.restore (⟨8, 8, 40⟩ : Arena)).apply
          (runOps ⟨⟨8, 8, 40⟩, []⟩ [Op.alloc 1 1 4 ⟨0⟩])) =
      (Op.restore (⟨8, 8, 40⟩ : Arena)).apply
        (runOps ⟨⟨8, 8, 40⟩, []⟩ [Op.alloc 1 1 4 ⟨0⟩]) :=
  c9_snapshot_restore_idempotent ⟨⟨8, 8, 40⟩, []⟩ [Op.alloc 1 1 4 ⟨0⟩]
    (by
      intro op hop
      rw [List.mem_singleton] at hop
      subst hop
      trivial)
    (ValidTrace.cons
      ⟨by decide, by decide, ⟨0, by norm_num⟩, by norm_num, by norm_num⟩
      ValidTrace.nil)

section ByteLemmas

/-- Pointwise agreement of two stores on two ranges yields equal reads. -/
lemma readBytes_eq_of_pointwise {f g : Store} {a b : Int} {n : Nat}
    (h : ∀ i : Nat, i < n → f (a + i) = g (b + i)) :
    readBytes f a n = readBytes g b n := by
  unfold readBytes
  induction n with
  | zero => rfl
  | succ k ih =>
    rw [List.range_succ, List.map_append, List.map_append,
      ih fun i hi => h i (by omega)]
    simp [h k (by omega)]

/-- Reading a range splits at any interior point. -/
lemma readBytes_split (st : Store) (a : Int) (p q : Nat) :
    readBytes st a (p + q) = readBytes st a p ++ readBytes st (a + p) q := by
  induction q with
  | zero => simp [readBytes]
  | succ k ih =>
    have h1 : p + (k + 1) = (p + k) + 1 := by omega
    rw [h1]
    unfold readBytes at *
    rw [List.range_succ, List.map_append, ih, List.range_succ, List.map_append,
      List.append_assoc]
    congr 2
    simp
    congr 1
    ring

/-- `memmove` leaves bytes outside the destination range unchanged. -/
lemma memmove_outside {st : Store} {dst src n x : Int}
    (h : x < dst ∨ dst + n ≤ x) : memmove st dst src n x = st x := by
  unfold memmove
  rw [if_neg (by omega)]

/-- Reading the copied range of a `memmove` gives the source bytes. -/
lemma readBytes_memmove_dst {st : Store} {dst src n : Int} {m : Nat}
    (hm : (m : Int) ≤ n) :
    readBytes (memmove st dst src n) dst m = readBytes st src m := by
  apply readBytes_eq_of_pointwise
  intro i hi
  unfold memmove
  rw [if_pos (by constructor <;> [omega; (push_cast; omega)])]
  congr 1
  ring

end ByteLemmas

section CloneLemmas

/-- The fast path of `astr_clone`: empty or tip-adjacent strings are returned
unchanged. -/
lemma astr_clone_eq_fast {m : Mem} {s : astr}
    (h : s.len = 0 ∨ s.data + s.len = m.arena.cur) :
    astr_clone m s = some (m, s) := by
  unfold astr_clone
  rw [if_pos h]

/-- The copy path of `astr_clone`: with capacity available, the string is
copied to the arena tip and the cursor advances by its length. -/
lemma astr_clone_eq_copy {m : Mem} {s : astr}
    (h : ¬(s.len = 0 ∨ s.data + s.len = m.arena.cur))
    (hl : 0 ≤ s.len) (hcap : m.arena.cur + s.len ≤ m.arena.end_) :
    astr_clone m s = some
      (⟨{ m.arena with cur := m.arena.cur + s.len },
        memmove m.st m.arena.cur s.data s.len⟩,
       ⟨m.arena.cur, s.len⟩) := by
  unfold astr_clone
  rw [if_neg h]
  unfold arena_allocM
  have hsucc := @arena_alloc_success m.arena 1 1 s.len NO_INIT (le_refl 1) hl
    (le_refl 1)
    (by rw [pad_of_one, one_mul]; omega)
  rw [hsucc]
  simp only [pad_of_one, add_zero, one_mul]
  rw [if_pos (by decide : NO_INIT.mask &&& 1 ≠ 0)]

end CloneLemmas

/-- Reading zero bytes yields the empty list. -/
lemma readBytes_zero (st : Store) (a : Int) : readBytes st a 0 = [] := rfl

/-- C5 counterexample: `astr_concat` on an arena whose tip holds `"ab"`, with
`head = tail =` that tip string, takes the tip-adjacency fast path twice and
returns a length-4 string whose bytes are `"ab"` followed by two bytes that
lie beyond the cursor (here `0`), not `"abab"` — so the result is not the
concatenation of the operands' bytes. -/
theorem c5_counterexample :
    (astr_concat ⟨⟨0, 2, 100⟩, fun x => if x = 0 then 97 else if x = 1 then 98 else 0⟩
        ⟨0, 2⟩ ⟨0, 2⟩).map (fun p => (p.2, readBytes p.1.st p.2.data 4)) =
      some (⟨0, 4⟩, [97, 98, 0, 0]) ∧
    readBytes (fun x => if x = 0 then 97 else if x = 1 then 98 else 0) 0 2 ++
      readBytes (fun x => if x = 0 then 97 else if x = 1 then 98 else 0) 0 2 =
      [97, 98, 97, 98] ∧
    ([97, 98, 0, 0] : List Nat) ≠ [97, 98, 97, 98] := by
  decide

/-- C5 (amended: additionally require that the tail's byte range lies
strictly below the arena cursor, or that one operand is empty — when the tail
ends exactly at the cursor reached after cloning the head, the clone fast
path skips the copy and the result covers bytes past the cursor instead of
the tail's bytes, see the counterexample): with sufficient capacity,
`astr_concat` succeeds, the result's length is `head.len + tail.len`, and its
bytes are byte-for-byte the bytes of `head` followed by the bytes of `tail`,
whichever combination of fast and copy paths is taken. -/
theorem c5_concat_correct (m : Mem) (head tail : astr)
    (hh : 0 ≤ head.len) (ht : 0 ≤ tail.len)
    (hcap : m.arena.cur + head.len + tail.len ≤ m.arena.end_)
    (halias : head.len = 0 ∨ tail.len = 0 ∨ tail.data + tail.len < m.arena.cur) :
    ∃ m' r, astr_concat m head tail = some (m', r) ∧
      r.len = head.len + tail.len ∧
      readBytes m'.st r.data (head.len + tail.len).toNat =
        readBytes m.st head.data head.len.toNat ++
        readBytes m.st tail.data tail.len.toNat := by
  by_cases hhl : head.len = 0
  · have hsimp : astr_concat m head tail =
        if tail.len ≠ 0 ∧ tail.data + tail.len = m.arena.cur then some (m, tail)
        else astr_clone m tail := by
      unfold astr_concat
      rw [if_pos hhl]
    by_cases htip : tail.len ≠ 0 ∧ tail.data + tail.len = m.arena.cur
    · refine ⟨m, tail, by rw [hsimp, if_pos htip], by omega, ?_⟩
      rw [hhl]
      simp [readBytes_zero]
    · by_cases hte : tail.len = 0 ∨ tail.data + tail.len = m.arena.cur
      · refine ⟨m, tail,
          by rw [hsimp, if_neg htip, astr_clone_eq_fast hte], by omega, ?_⟩
        rw [hhl]
        simp [readBytes_zero]
      · have hcap' : m.arena.cur + tail.len ≤ m.arena.end_ := by omega
        refine ⟨_, _,
          by rw [hsimp, if_neg htip, astr_clone_eq_copy hte ht hcap'],
          by show tail.len = head.len + tail.len; omega, ?_⟩
        rw [hhl]
        simp only [zero_add, Int.toNat_zero, readBytes_zero, List.nil_append]
        exact readBytes_memmove_dst (by omega)
  · have hh1 : 1 ≤ head.len := by omega
    have hsimp : astr_concat m head tail =
        match astr_clone m head with
        | some (m1, result) =>
            match astr_clone m1 tail with
            | some (m2, t2) => some (m2, ⟨result.data, result.len + t2.len⟩)
            | none => none
        | none => none := by
      unfold astr_concat
      rw [if_neg hhl]
    by_cases htl0 : tail.len = 0
    · by_cases hhe : head.len = 0 ∨ head.data + head.len = m.arena.cur
      · refine ⟨m, ⟨head.data, head.len + tail.len⟩, ?_, rfl, ?_⟩
        · simp only [hsimp, astr_clone_eq_fast hhe,
            astr_clone_eq_fast (Or.inl htl0)]
        · rw [htl0]
          simp [readBytes_zero]
      · have hcap' : m.arena.cur + head.len ≤ m.arena.end_ := by omega
        refine ⟨⟨{ m.arena with cur := m.arena.cur + head.len },
            memmove m.st m.arena.cur head.data head.len⟩,
          ⟨m.arena.cur, head.len + tail.len⟩, ?_, rfl, ?_⟩
        · simp only [hsimp, astr_clone_eq_copy hhe hh hcap']
          rw [astr_clone_eq_fast (Or.inl htl0)]
        · rw [htl0]
          simp only [add_zero, Int.toNat_zero, readBytes_zero, List.append_nil]
          exact readBytes_memmove_dst (by omega)
    · have htlt : tail.data + tail.len < m.arena.cur := by
        rcases halias with h | h | h
        · exact absurd h hhl
        · exact absurd h htl0
        · exact h
      by_cases hhe : head.len = 0 ∨ head.data + head.len = m.arena.cur
      · have hhdtip : head.data + head.len = m.arena.cur := hhe.resolve_left hhl
        have htne : ¬(tail.len = 0 ∨ tail.data + tail.len = m.arena.cur) := by
          push_neg
          exact ⟨htl0, by omega⟩
        have hcap' : m.arena.cur + tail.len ≤ m.arena.end_ := by omega
        refine ⟨⟨{ m.arena with cur := m.arena.cur + tail.len },
            memmove m.st m.arena.cur tail.data tail.len⟩,
          ⟨head.data, head.len + tail.len⟩, ?_, rfl, ?_⟩
        · simp only [hsimp, astr_clone_eq_fast hhe,
            astr_clone_eq_copy htne ht hcap']
        · rw [Int.toNat_add hh ht, readBytes_split]
          congr 1
          · apply readBytes_eq_of_pointwise
            intro i hi
            apply memmove_outside
            left
            show head.data + (i : Int) < m.arena.cur
            omega
          · rw [show head.data + (head.len.toNat : Int) = m.arena.cur by omega]
            exact readBytes_memmove_dst (by omega)
      · have hcap1 : m.arena.cur + head.len ≤ m.arena.end_ := by omega
        have htne : ¬(tail.len = 0 ∨ tail.data + tail.len =
            (⟨{ m.arena with cur := m.arena.cur + head.len },
              memmove m.st m.arena.cur head.data head.len⟩ : Mem).arena.cur) := by
          push_neg
          refine ⟨htl0, ?_⟩
          show tail.data + tail.len ≠ m.arena.cur + head.len
          omega
        refine ⟨⟨{ m.arena with cur := m.arena.cur + head.len + tail.len },
            memmove (memmove m.st m.arena.cur head.data head.len)
              (m.arena.cur + head.len) tail.data tail.len⟩,
          ⟨m.arena.cur, head.len + tail.len⟩, ?_, rfl, ?_⟩
        have hcap2 : (⟨{ m.arena with cur := m.arena.cur + head.len },
            memmove m.st m.arena.cur head.data head.len⟩ : Mem).arena.cur +
              tail.len ≤
            (⟨{ m.arena with cur := m.arena.cur + head.len },
            memmove m.st m.arena.cur head.data head.len⟩ : Mem).arena.end_ := by
          show m.arena.cur + head.len + tail.len ≤ m.arena.end_
          omega
        · simp only [hsimp, astr_clone_eq_copy hhe hh hcap1]
          rw [astr_clone_eq_copy htne ht hcap2]
        · rw [Int.toNat_add hh ht, readBytes_split]
          congr 1
          · show readBytes (memmove
                (memmove m.st m.arena.cur head.data head.len)
                (m.arena.cur + head.len) tail.data tail.len)
                m.arena.cur head.len.toNat =
              readBytes m.st head.data head.len.toNat
            exact Eq.trans
              (readBytes_eq_of_pointwise fun i hi =>
                memmove_outside (Or.inl (by omega)))
              (readBytes_memmove_dst (by omega))
          · show readBytes (memmove
                (memmove m.st m.arena.cur head.data head.len)
                (m.arena.cur + head.len) tail.data tail.len)
                (m.arena.cur + (head.len.toNat : Int)) tail.len.toNat =
              readBytes m.st tail.data tail.len.toNat
            rw [show m.arena.cur + (head.len.toNat : Int) =
                m.arena.cur + head.len by omega]
            exact Eq.trans (readBytes_memmove_dst (by omega))
              (readBytes_eq_of_pointwise fun i hi =>
                memmove_outside (Or.inl (by omega)))

/-- C5 witness: concatenating two live strings that both sit strictly below
the cursor of a 100-byte arena. -/
theorem c5_concat_correct_witness :
    ∃ m' r, astr_concat ⟨⟨0, 10, 100⟩, fun _ => 7⟩ ⟨2, 3⟩ ⟨5, 2⟩ =
        some (m', r) ∧
      r.len = (⟨2, 3⟩ : astr).len + (⟨5, 2⟩ : astr).len ∧
      readBytes m'.st r.data
          ((⟨2, 3⟩ : astr).len + (⟨5, 2⟩ : astr).len).toNat =
        readBytes (⟨⟨0, 10, 100⟩, fun _ => 7⟩ : Mem).st (⟨2, 3⟩ : astr).data
          (⟨2, 3⟩ : astr).len.toNat ++
        readBytes (⟨⟨0, 10, 100⟩, fun _ => 7⟩ : Mem).st (⟨5, 2⟩ : astr).data
          (⟨5, 2⟩ : astr).len.toNat :=
  c5_concat_correct ⟨⟨0, 10, 100⟩, fun _ => 7⟩ ⟨2, 3⟩ ⟨5, 2⟩ (by decide)
    (by decide) (by decide) (Or.inr (Or.inr (by decide)))

/-- Memory-level allocation success under `NO_INIT`: the store is untouched
and the cursor advances past the request. -/
lemma arena_allocM_success (m : Mem) {size align count : Int}
    (hs : 1 ≤ size) (hc : 0 ≤ count) (ha : 1 ≤ align)
    (hcap : pad_of m.arena.cur align + size * count ≤ m.arena.end_ - m.arena.cur) :
    arena_allocM m size align count NO_INIT =
      some (m.arena.cur + pad_of m.arena.cur align,
        ⟨{ m.arena with
            cur := m.arena.cur + pad_of m.arena.cur align + size * count },
          m.st⟩) := by
  unfold arena_allocM
  rw [arena_alloc_success m.arena NO_INIT hs hc ha hcap]
  dsimp only
  rw [if_pos (by decide : NO_INIT.mask &&& 1 ≠ 0)]

/-- C6 counterexample: growing an empty slice (`cap = 0`, `len = 0`) of
2-byte elements yields capacity `20 = len + 10 * size`, not
`len + 10` — the growth increment is `10 * size` elements, not 10. -/
theorem c6_counterexample :
    (arena_slice_grow ⟨⟨100, 100, 1000⟩, fun _ => 0⟩ ⟨0, 0, 0⟩ 2 2).map
        (fun p => p.2) = some ⟨100, 0, 20⟩ ∧
    ((20 : Int) ≠ 0 + 10) := by
  decide

/-- C6 (amended: the growth increment is `grow = 10 * size` elements — ten
elements only when the element size is one byte): when a push exceeds
capacity, `arena_slice_grow` behaves as follows.  With `cap = 0` the contents
are migrated into the arena and the new capacity is `len + 10*size`.  When
the slice's data range ends exactly at the cursor (`data == cur - size*cap`)
the capacity grows in place by `10*size` elements, allocating the delta
directly after it with no copy (the byte store is untouched and `data` keeps
its address).  Otherwise a fresh allocation of capacity
`cap + max(cap/2, 10*size)` is made and the `len` existing elements are
copied into it. -/
theorem c6_slice_grow_cases (m : Mem) (s : Slice) (size align : Int)
    (hs : 1 ≤ size) (hl : 0 ≤ s.len) (hc : 0 ≤ s.cap) (hal : 1 ≤ align) :
    (s.cap = 0 →
      pad_of m.arena.cur align + size * (s.len + 10 * size) ≤
        m.arena.end_ - m.arena.cur →
      ∃ m', arena_slice_grow m s size align =
          some (m', ⟨m.arena.cur + pad_of m.arena.cur align, s.len,
            s.len + 10 * size⟩) ∧
        m'.arena.cur = m.arena.cur + pad_of m.arena.cur align +
          size * (s.len + 10 * size) ∧
        readBytes m'.st (m.arena.cur + pad_of m.arena.cur align)
            (size * s.len).toNat =
          readBytes m.st s.data (size * s.len).toNat) ∧
    (s.cap ≠ 0 → s.data = m.arena.cur - size * s.cap →
      size * (10 * size) ≤ m.arena.end_ - m.arena.cur →
      arena_slice_grow m s size align =
        some (⟨{ m.arena with cur := m.arena.cur + size * (10 * size) }, m.st⟩,
          ⟨s.data, s.len, s.cap + 10 * size⟩)) ∧
    (s.cap ≠ 0 → s.data ≠ m.arena.cur - size * s.cap →
      pad_of m.arena.cur align +
          size * (s.cap + max (Int.tdiv s.cap 2) (10 * size)) ≤
        m.arena.end_ - m.arena.cur →
      ∃ m', arena_slice_grow m s size align =
          some (m', ⟨m.arena.cur + pad_of m.arena.cur align, s.len,
            s.cap + max (Int.tdiv s.cap 2) (10 * size)⟩) ∧
        readBytes m'.st (m.arena.cur + pad_of m.arena.cur align)
            (size * s.len).toNat =
          readBytes m.st s.data (size * s.len).toNat) := by
  have hsl : 0 ≤ size * s.len := mul_nonneg (by omega) hl
  refine ⟨?_, ?_, ?_⟩
  · intro hcap0 hcapacity
    unfold arena_slice_grow
    rw [if_pos hcap0]
    simp only [arena_allocM_success m hs (by omega) hal hcapacity]
    by_cases hlen : s.len = 0
    · rw [if_pos hlen]
      refine ⟨_, rfl, rfl, ?_⟩
      rw [hlen, mul_zero]
      rfl
    · rw [if_neg hlen]
      refine ⟨_, rfl, rfl, ?_⟩
      exact readBytes_memmove_dst (by omega)
  · intro hcne htip hcapacity
    unfold arena_slice_grow
    rw [if_neg hcne, if_pos htip]
    simp only [arena_allocM_success m hs
      (by omega : (0:Int) ≤ 10 * size) (le_refl 1)
      (by rw [pad_of_one]; omega), pad_of_one, add_zero]
  · intro hcne hnotip hcapacity
    have hcnt : 0 ≤ s.cap + max (Int.tdiv s.cap 2) (10 * size) := by
      have : (10:Int) * size ≤ max (Int.tdiv s.cap 2) (10 * size) :=
        le_max_right _ _
      omega
    unfold arena_slice_grow
    rw [if_neg hcne, if_neg hnotip]
    simp only [arena_allocM_success m hs hcnt hal hcapacity]
    refine ⟨_, rfl, ?_⟩
    exact readBytes_memmove_dst (by omega)

/-- C6 witness: a tip-adjacent slice of two 2-byte elements grows in place. -/
theorem c6_slice_grow_cases_witness :
    ((⟨100, 2, 2⟩ : Slice).cap = 0 →
      pad_of (⟨⟨100, 104, 1000⟩, fun _ => 1⟩ : Mem).arena.cur 2 +
          2 * ((⟨100, 2, 2⟩ : Slice).len + 10 * 2) ≤
        (⟨⟨100, 104, 1000⟩, fun _ => 1⟩ : Mem).arena.end_ -
          (⟨⟨100, 104, 1000⟩, fun _ => 1⟩ : Mem).arena.cur →
      ∃ m', arena_slice_grow ⟨⟨100, 104, 1000⟩, fun _ => 1⟩ ⟨100, 2, 2⟩ 2 2 =
          some (m', ⟨(⟨⟨100, 104, 1000⟩, fun _ => 1⟩ : Mem).arena.cur +
            pad_of (⟨⟨100, 104, 1000⟩, fun _ => 1⟩ : Mem).arena.cur 2,
            (⟨100, 2, 2⟩ : Slice).len, (⟨100, 2, 2⟩ : Slice).len + 10 * 2⟩) ∧
        m'.arena.cur = (⟨⟨100, 104, 1000⟩, fun _ => 1⟩ : Mem).arena.cur +
          pad_of (⟨⟨100, 104, 1000⟩, fun _ => 1⟩ : Mem).arena.cur 2 +
          2 * ((⟨100, 2, 2⟩ : Slice).len + 10 * 2) ∧
        readBytes m'.st ((⟨⟨100, 104, 1000⟩, fun _ => 1⟩ : Mem).arena.cur +
            pad_of (⟨⟨100, 104, 1000⟩, fun _ => 1⟩ : Mem).arena.cur 2)
            (2 * (⟨100, 2, 2⟩ : Slice).len).toNat =
          readBytes (⟨⟨100, 104, 1000⟩, fun _ => 1⟩ : Mem).st
            (⟨100, 2, 2⟩ : Slice).data (2 * (⟨100, 2, 2⟩ : Slice).len).toNat) ∧
    ((⟨100, 2, 2⟩ : Slice).cap ≠ 0 →
      (⟨100, 2, 2⟩ : Slice).data =
        (⟨⟨100, 104, 1000⟩, fun _ => 1⟩ : Mem).arena.cur -
          2 * (⟨100, 2, 2⟩ : Slice).cap →
      2 * (10 * 2) ≤ (⟨⟨100, 104, 1000⟩, fun _ => 1⟩ : Mem).arena.end_ -
        (⟨⟨100, 104, 1000⟩, fun _ => 1⟩ : Mem).arena.cur →
      arena_slice_grow ⟨⟨100, 104, 1000⟩, fun _ => 1⟩ ⟨100, 2, 2⟩ 2 2 =
        some (⟨{ (⟨⟨100, 104, 1000⟩, fun _ => 1⟩ : Mem).arena with
            cur := (⟨⟨100, 104, 1000⟩, fun _ => 1⟩ : Mem).arena.cur +
              2 * (10 * 2) },
          (⟨⟨100, 104, 1000⟩, fun _ => 1⟩ : Mem).st⟩,
          ⟨(⟨100, 2, 2⟩ : Slice).data, (⟨100, 2, 2⟩ : Slice).len,
            (⟨100, 2, 2⟩ : Slice).cap + 10 * 2⟩)) ∧
    ((⟨100, 2, 2⟩ : Slice).cap ≠ 0 →
      (⟨100, 2, 2⟩ : Slice).data ≠
        (⟨⟨100, 104, 1000⟩, fun _ => 1⟩ : Mem).arena.cur -
          2 * (⟨100, 2, 2⟩ : Slice).cap →
      pad_of (⟨⟨100, 104, 1000⟩, fun _ => 1⟩ : Mem).arena.cur 2 +
          2 * ((⟨100, 2, 2⟩ : Slice).cap +
            max (Int.tdiv (⟨100, 2, 2⟩ : Slice).cap 2) (10 * 2)) ≤
        (⟨⟨100, 104, 1000⟩, fun _ => 1⟩ : Mem).arena.end_ -
          (⟨⟨100, 104, 1000⟩, fun _ => 1⟩ : Mem).arena.cur →
      ∃ m', arena_slice_grow ⟨⟨100, 104, 1000⟩, fun _ => 1⟩ ⟨100, 2, 2⟩ 2 2 =
          some (m', ⟨(⟨⟨100, 104, 1000⟩, fun _ => 1⟩ : Mem).arena.cur +
            pad_of (⟨⟨100, 104, 1000⟩, fun _ => 1⟩ : Mem).arena.cur 2,
            (⟨100, 2, 2⟩ : Slice).len,
            (⟨100, 2, 2⟩ : Slice).cap +
              max (Int.tdiv (⟨100, 2, 2⟩ : Slice).cap 2) (10 * 2)⟩) ∧
        readBytes m'.st ((⟨⟨100, 104, 1000⟩, fun _ => 1⟩ : Mem).arena.cur +
            pad_of (⟨⟨100, 104, 1000⟩, fun _ => 1⟩ : Mem).arena.cur 2)
            (2 * (⟨100, 2, 2⟩ : Slice).len).toNat =
          readBytes (⟨⟨100, 104, 1000⟩, fun _ => 1⟩ : Mem).st
            (⟨100, 2, 2⟩ : Slice).data
            (2 * (⟨100, 2, 2⟩ : Slice).len).toNat) :=
  c6_slice_grow_cases ⟨⟨100, 104, 1000⟩, fun _ => 1⟩ ⟨100, 2, 2⟩ 2 2
    (by decide) (by decide) (by decide) (by decide)
